import Mathlib

/-!
Verification of the BLE_get_Darts_Live_Home_Info repository's connection
supervisor subsystem against its natural-language specification.

The Python sources are shallowly embedded:
* `src/src/data/mapper.py` (`SegmentMapper`) — calibration table, decode,
  score, export/import;
* `src/backend/ble_manager.py` (`BLEManager._on_throw_data`,
  `BLEManager._process_throws_worker`) — bounded ingestion queue and the
  worker's per-sample processing, modelled as explicit state passing and
  effect traces;
* `src/backend/event_bus.py` (`EventBus`) — publish/subscribe keyed by
  event-type string, handlers modelled as state transformers that may
  report a raised exception (caught by `publish`);
* `src/src/ble/scanner.py` (`DartsLiveScanner.scan_with_retry`) — retry
  loop over an environment oracle giving each attempt's outcome, with an
  explicit trace of scan attempts and sleeps.

Python `dict`s are embedded as association lists with insertion-order
semantics (`dictGet` = first-match lookup, `dictInsert` = replace-in-place
or append, exactly a CPython dict's observable behaviour for the
operations the sources use).
-/

/-- Lookup in a Python-dict model: first entry with the given key. -/
def dictGet {κ α : Type} [DecidableEq κ] : List (κ × α) → κ → Option α
  | [], _ => none
  | p :: rest, k => if p.1 = k then some p.2 else dictGet rest k

/-- Assignment `m[k] = v` in a Python-dict model: replace the entry in
place if the key is present, otherwise append (insertion order). -/
def dictInsert {κ α : Type} [DecidableEq κ] : List (κ × α) → κ → α → List (κ × α)
  | [], k, v => [(k, v)]
  | p :: rest, k, v => if p.1 = k then (k, v) :: rest else p :: dictInsert rest k v

theorem dictGet_dictInsert_self {κ α : Type} [DecidableEq κ]
    (m : List (κ × α)) (k : κ) (v : α) : dictGet (dictInsert m k v) k = some v := by
  induction m with
  | nil => simp [dictInsert, dictGet]
  | cons p rest ih =>
    by_cases h : p.1 = k
    · simp [dictInsert, dictGet, h]
    · simp [dictInsert, dictGet, h, ih]

theorem dictGet_dictInsert_ne {κ α : Type} [DecidableEq κ]
    (m : List (κ × α)) (k k' : κ) (v : α) (h : k' ≠ k) :
    dictGet (dictInsert m k v) k' = dictGet m k' := by
  induction m with
  | nil => simp [dictInsert, dictGet, Ne.symm h]
  | cons p rest ih =>
    by_cases hp : p.1 = k
    · subst hp
      simp [dictInsert, dictGet, Ne.symm h]
    · by_cases hp' : p.1 = k'
      · simp [dictInsert, dictGet, hp, hp', h]
      · simp [dictInsert, dictGet, hp, hp', ih]

theorem dictGet_isSome_of_mem {κ α : Type} [DecidableEq κ]
    {m : List (κ × α)} {k : κ} (h : k ∈ m.map Prod.fst) :
    (dictGet m k).isSome := by
  induction m with
  | nil => simp at h
  | cons p rest ih =>
    by_cases hp : p.1 = k
    · simp [dictGet, hp]
    · simp [dictGet, hp]
      rcases List.mem_map.mp h with ⟨q, hq, hqk⟩
      rcases List.mem_cons.mp hq with h1 | h2
      · exact absurd (h1 ▸ hqk) hp
      · exact ih (List.mem_map.mpr ⟨q, h2, hqk⟩)

theorem dictGet_of_mem_nodup {κ α : Type} [DecidableEq κ]
    {m : List (κ × α)} {k : κ} {v : α}
    (hmem : (k, v) ∈ m) (hnd : (m.map Prod.fst).Nodup) :
    dictGet m k = some v := by
  induction m with
  | nil => simp at hmem
  | cons p rest ih =>
    simp only [List.map_cons, List.nodup_cons] at hnd
    rcases List.mem_cons.mp hmem with h1 | h2
    · subst h1; simp [dictGet]
    · have hp : p.1 ≠ k := by
        intro hk
        exact hnd.1 (hk ▸ List.mem_map.mpr ⟨(k, v), h2, rfl⟩)
      simp [dictGet, hp, ih h2 hnd.2]

theorem foldl_dictInsert_not_mem {κ α : Type} [DecidableEq κ]
    (l : List (κ × α)) (m₀ : List (κ × α)) (k : κ)
    (h : ∀ p ∈ l, p.1 ≠ k) :
    dictGet (l.foldl (fun m p => dictInsert m p.1 p.2) m₀) k = dictGet m₀ k := by
  induction l generalizing m₀ with
  | nil => rfl
  | cons p rest ih =>
    simp only [List.foldl_cons]
    rw [ih _ (fun q hq => h q (List.mem_cons_of_mem _ hq)),
      dictGet_dictInsert_ne _ _ _ _ (fun hk => h p (List.mem_cons_self _ _) hk.symm)]

theorem foldl_dictInsert_lookup {κ α : Type} [DecidableEq κ]
    (l : List (κ × α)) (hnd : (l.map Prod.fst).Nodup) (m₀ : List (κ × α)) (k : κ) :
    dictGet (l.foldl (fun m p => dictInsert m p.1 p.2) m₀) k
      = Option.or (dictGet l k) (dictGet m₀ k) := by
  induction l generalizing m₀ with
  | nil => simp [dictGet, Option.or]
  | cons p rest ih =>
    simp only [List.map_cons, List.nodup_cons] at hnd
    simp only [List.foldl_cons]
    by_cases hp : p.1 = k
    · subst hp
      have hrest : ∀ q ∈ rest, q.1 ≠ p.1 := by
        intro q hq hqk
        exact hnd.1 (hqk ▸ List.mem_map.mpr ⟨q, hq, rfl⟩)
      rw [foldl_dictInsert_not_mem _ _ _ hrest, dictGet_dictInsert_self]
      simp [dictGet, Option.or]
    · rw [ih hnd.2, dictGet_dictInsert_ne _ _ _ _ (fun hk => hp hk.symm)]
      simp [dictGet, hp]

/-! ## Hexadecimal key formatting and parsing

`SegmentMapper.export_mapping` keys its table by the Python f-string
`f"0x{code:02x}"` (lowercase hex, zero-padded to width 2);
`SegmentMapper.import_mapping` recovers the code with
`int(code_str, 16) if code_str.startswith('0x') else int(code_str)`.
-/

/-- Lowercase hexadecimal digit character, as produced by Python's `%x`
formatting (`'0'`–`'9'` then `'a'`–`'f'`). -/
def hexChar (d : Nat) : Char :=
  if d < 10 then Char.ofNat (48 + d) else Char.ofNat (87 + d)

/-- Numeric value of a hexadecimal digit character, as accepted by Python's
`int(_, 16)`. -/
def hexVal (c : Char) : Nat :=
  if c.toNat ≥ 97 then c.toNat - 87 else c.toNat - 48

/-- Hexadecimal digit values of `n`, most significant first (empty for 0). -/
def hexDigitsOf (n : Nat) : List Nat := (Nat.digits 16 n).reverse

/-- Zero-pad a big-endian digit list to width two, like `%02x`. -/
def padTo2 (l : List Nat) : List Nat := List.replicate (2 - l.length) 0 ++ l

/-- Character list of Python's `f"{n:02x}"`. -/
def hexChars2 (n : Nat) : List Char := (padTo2 (hexDigitsOf n)).map hexChar

/-- Python's `f"{n:02x}"`. -/
def hexStr2 (n : Nat) : String := String.mk (hexChars2 n)

/-- The export-table key `f"0x{code:02x}"`. -/
def exportKey (n : Nat) : String := String.mk ('0' :: 'x' :: hexChars2 n)

/-- Value of Python's `int(s, 16)` on a well-formed hexadecimal string
(optionally `0x`-prefixed). Python raises on malformed input; this total
model is only applied to well-formed keys. -/
def pyInt16 (s : String) : Nat :=
  ((if s.data.take 2 = ['0', 'x'] then s.data.drop 2 else s.data).map hexVal).foldl
    (fun a d => 16 * a + d) 0

/-- Value of Python's `int(s)` on a well-formed decimal string. -/
def pyInt10 (s : String) : Nat :=
  s.data.foldl (fun a c => 10 * a + (c.toNat - 48)) 0

/-- The key-to-code conversion in `SegmentMapper.import_mapping`:
`int(code_str, 16) if code_str.startswith('0x') else int(code_str)`. -/
def keyToCode (s : String) : Nat :=
  if s.data.take 2 = ['0', 'x'] then pyInt16 s else pyInt10 s

theorem hexVal_hexChar {d : Nat} (h : d < 16) : hexVal (hexChar d) = d := by
  interval_cases d <;> rfl

theorem hexFoldAux (M : List Nat) (a : Nat) :
    M.foldl (fun x d => 16 * x + d) a = a * 16 ^ M.length + Nat.ofDigits 16 M.reverse := by
  induction M generalizing a with
  | nil => simp
  | cons d t ih =>
    simp only [List.foldl_cons, List.reverse_cons, List.length_cons, ih,
      Nat.ofDigits_append, Nat.ofDigits_singleton, List.length_reverse]
    ring

theorem mem_padTo2_lt {n d : Nat} (h : d ∈ padTo2 (hexDigitsOf n)) : d < 16 := by
  rcases List.mem_append.mp h with h1 | h2
  · have := List.eq_of_mem_replicate h1
    omega
  · exact Nat.digits_lt_base (by norm_num) (List.mem_reverse.mp h2)

theorem hexChars2_parse (n : Nat) :
    ((hexChars2 n).map hexVal).foldl (fun a d => 16 * a + d) 0 = n := by
  have hmap : (hexChars2 n).map hexVal = padTo2 (hexDigitsOf n) := by
    rw [hexChars2, List.map_map]
    have : ∀ d ∈ padTo2 (hexDigitsOf n), (hexVal ∘ hexChar) d = id d := by
      intro d hd
      simpa using hexVal_hexChar (mem_padTo2_lt hd)
    rw [List.map_congr_left this, List.map_id]
  rw [hmap, padTo2, List.foldl_append]
  have hz : ∀ k : Nat, (List.replicate k 0).foldl (fun a d : Nat => 16 * a + d) 0 = 0 := by
    intro k
    induction k with
    | zero => rfl
    | succ m ih => simpa [List.replicate_succ] using ih
  rw [hz, hexDigitsOf, hexFoldAux]
  simp [Nat.ofDigits_digits]

theorem keyToCode_exportKey (n : Nat) : keyToCode (exportKey n) = n := by
  have hdata : (exportKey n).data = '0' :: 'x' :: hexChars2 n := rfl
  have htake : (exportKey n).data.take 2 = ['0', 'x'] := by rw [hdata]; rfl
  rw [keyToCode, if_pos htake, pyInt16, if_pos htake, hdata]
  simpa using hexChars2_parse n

theorem exportKey_injective {a b : Nat} (h : exportKey a = exportKey b) : a = b := by
  have := congrArg keyToCode h
  rwa [keyToCode_exportKey, keyToCode_exportKey] at this

/-! ## SegmentMapper (`src/src/data/mapper.py`)

The calibration entry is the Python tuple
`(base_number, multiplier, segment_name)`.
-/

/-- Entry of the calibration table: `(base_number, multiplier, segment_name)`. -/
abbrev SegEntry := Nat × Nat × String

/-- The `board_numbers` list of `_create_default_mapping` (clockwise layout). -/
def board_numbers : List Nat := [20, 1, 18, 4, 13, 6, 10, 15, 2, 17, 3, 19, 7, 16, 8, 11, 14, 9, 12, 5]

/-- The `triple_numbers_1_19` list of `_create_default_mapping`. -/
def triple_numbers_1_19 : List Nat := [1, 18, 4, 13, 6, 10, 15, 2, 17, 3, 19, 7, 16, 8, 11, 14, 9, 12, 5]

/-- The `single_numbers_1_19` list of `_create_default_mapping`. -/
def single_numbers_1_19 : List Nat := [1, 18, 4, 13, 6, 10, 15, 2, 17, 3, 19, 7, 16, 8, 11, 14, 9, 12, 5]

/-- A `code = start; for num in nums: mapping[code] = (num, mult, nameBase + str(num)); code += 1`
loop of `_create_default_mapping`. -/
def addSeq (mult : Nat) (nameBase : String) : List (Nat × SegEntry) → Nat → List Nat → List (Nat × SegEntry)
  | m, _, [] => m
  | m, code, num :: rest =>
    addSeq mult nameBase (dictInsert m code (num, mult, nameBase ++ toString num)) (code + 1) rest

/-- Embeds `SegmentMapper._create_default_mapping`. -/
def _create_default_mapping : List (Nat × SegEntry) :=
  let m := addSeq 3 "トリプル" [] 0x14 triple_numbers_1_19
  let m := dictInsert m 0x27 (20, 3, "トリプル20")
  let m := addSeq 2 "ダブル" m 0x28 board_numbers
  let m := addSeq 1 "シングル" m 0x3e single_numbers_1_19
  let m := dictInsert m 0x54 (20, 1, "シングル20")
  let m := dictInsert m 0x51 (25, 1, "アウターブル")
  dictInsert m 0x52 (25, 2, "インナーブル")

/-- The `SegmentMapper` state: its `_mapping` dict. -/
structure SegmentMapper where
  _mapping : List (Nat × SegEntry)
deriving DecidableEq

/-- A freshly constructed `SegmentMapper()` (its `__init__`). -/
def SegmentMapper.default : SegmentMapper := ⟨_create_default_mapping⟩

/-- Embeds `SegmentMapper.get_segment_info`. -/
def SegmentMapper.get_segment_info (self : SegmentMapper) (segment_code : Nat) :
    Option Nat × Option Nat × String :=
  match dictGet self._mapping segment_code with
  | some (base_number, multiplier, segment_name) => (some base_number, some multiplier, segment_name)
  | none => (none, none, "不明(0x" ++ hexStr2 segment_code ++ ")")

/-- Embeds `SegmentMapper.get_score`: `None` when `base_number` or `multiplier`
is `None`, else their product. -/
def SegmentMapper.get_score (self : SegmentMapper) (segment_code : Nat) : Option Nat :=
  match self.get_segment_info segment_code with
  | (some base_number, some multiplier, _) => some (base_number * multiplier)
  | _ => none

/-- Embeds `SegmentMapper.update_mapping`. -/
def SegmentMapper.update_mapping (self : SegmentMapper) (segment_code base_number multiplier : Nat)
    (segment_name : String) : SegmentMapper :=
  ⟨dictInsert self._mapping segment_code (base_number, multiplier, segment_name)⟩

/-- Embeds `SegmentMapper.export_mapping`: dict keyed by `f"0x{code:02x}"`, the
value dict `{'base_number', 'multiplier', 'segment_name'}` kept as the entry. -/
def SegmentMapper.export_mapping (self : SegmentMapper) : List (String × SegEntry) :=
  self._mapping.map (fun p => (exportKey p.1, p.2))

/-- Embeds `SegmentMapper.import_mapping`: each key is parsed back to a code and
assigned into the existing `_mapping` dict. -/
def SegmentMapper.import_mapping (self : SegmentMapper) (mapping_dict : List (String × SegEntry)) :
    SegmentMapper :=
  ⟨mapping_dict.foldl (fun m p => dictInsert m (keyToCode p.1) p.2) self._mapping⟩

/-! ## Worker pipeline data (`src/src/data/models.py`, `src/backend/ble_manager.py`)

`datetime` values are embedded by their ISO-format string (the only
observation the modelled code makes of them). `__post_init__`'s
default-now is not modelled: every modelled construction site supplies a
timestamp explicitly, as the worker does.
-/

/-- A `datetime` value, represented by its `isoformat()` string. -/
structure Datetime where
  iso : String
deriving DecidableEq

/-- Embeds `datetime.isoformat()`. -/
def Datetime.isoformat (t : Datetime) : String := t.iso

/-- The dict enqueued by `BLEManager._on_throw_data`. -/
structure RawSample where
  segment_code : Nat
  timestamp : Datetime
  device_address : String
  device_name : String
deriving DecidableEq

/-- The `DartThrow` dataclass (`src/src/data/models.py`). -/
structure DartThrow where
  id : Option Nat
  timestamp : Datetime
  segment_code : Nat
  segment_name : String
  base_number : Option Nat
  multiplier : Option Nat
  score : Option Nat
  device_address : String
  device_name : String
deriving DecidableEq

/-- The dict produced by `DartThrow.to_dict`. -/
structure ThrowDict where
  id : Option Nat
  timestamp : Option String
  segment_code : Nat
  segment_name : String
  base_number : Option Nat
  multiplier : Option Nat
  score : Option Nat
  device_address : String
  device_name : String
deriving DecidableEq

/-- Embeds `DartThrow.to_dict`. -/
def DartThrow.to_dict (t : DartThrow) : ThrowDict :=
  ⟨t.id, some t.timestamp.isoformat, t.segment_code, t.segment_name,
    t.base_number, t.multiplier, t.score, t.device_address, t.device_name⟩

/-- Payload published on the event bus by the worker: either the
`player_change` dict `{'segment_code', 'timestamp'}` or a full
`DartThrow.to_dict()` dict. -/
inductive Payload where
  | playerChange (segment_code : Nat) (timestamp : String)
  | throwEvent (d : ThrowDict)
deriving DecidableEq

/-- Observable effect of the worker on its collaborators: a
`database.save_throw` call or an `event_bus.publish` call. -/
inductive Effect where
  | save (t : DartThrow)
  | publish (event_type : String) (payload : Payload)
deriving DecidableEq

/-- One iteration of `BLEManager._process_throws_worker` on a dequeued
sample, as the ordered effect trace it performs. `throwId` is the id the
database's `save_throw` contract returns for the saved record. -/
def process_throw (mapper : SegmentMapper) (throwId : Nat) (td : RawSample) : List Effect :=
  let info := mapper.get_segment_info td.segment_code
  let score := mapper.get_score td.segment_code
  if td.segment_code = 0x54 then
    [Effect.publish "player_change" (Payload.playerChange td.segment_code td.timestamp.isoformat),
      Effect.save ⟨none, td.timestamp, td.segment_code, info.2.2, info.1, info.2.1, score,
        td.device_address, td.device_name⟩]
  else
    let t : DartThrow := ⟨none, td.timestamp, td.segment_code, info.2.2, info.1, info.2.1, score,
      td.device_address, td.device_name⟩
    [Effect.save t, Effect.publish "throw" (Payload.throwEvent (DartThrow.to_dict ⟨some throwId,
      t.timestamp, t.segment_code, t.segment_name, t.base_number, t.multiplier, t.score,
      t.device_address, t.device_name⟩))]

/-! ## Bounded ingestion queue (`BLEManager.__init__`, `BLEManager._on_throw_data`)

`queue.Queue(maxsize=...)`: `put_nowait` raises `queue.Full` when the
queue holds `maxsize` items; `_on_throw_data` catches it and logs a drop
diagnostic. `dropped` counts those logged drop diagnostics. -/

/-- The `queue.Queue(maxsize=…)` holding pending samples. -/
structure ProcessingQueue where
  maxsize : Nat
  items : List RawSample
deriving DecidableEq

/-- The maxsize used in `BLEManager.__init__` (最大1000件). -/
def processingQueueMaxsize : Nat := 1000

/-- Producer-side state: the queue plus the count of drop diagnostics
logged by the `except queue.Full` branch. -/
structure IngestState where
  q : ProcessingQueue
  dropped : Nat
deriving DecidableEq

/-- Embeds `BLEManager._on_throw_data`: non-blocking `put_nowait` of the sample
dict; on `queue.Full` the sample is discarded and the drop is logged. The
function is total — no exception reaches the caller. -/
def _on_throw_data (st : IngestState) (segment_code : Nat) (now : Datetime)
    (device_address device_name : String) : IngestState :=
  if st.q.items.length < st.q.maxsize then
    ⟨⟨st.q.maxsize, st.q.items ++ [⟨segment_code, now, device_address, device_name⟩]⟩, st.dropped⟩
  else
    ⟨st.q, st.dropped + 1⟩

/-- Feed a sequence of notification callbacks through `_on_throw_data`. -/
def ingestAll (st : IngestState) (samples : List (Nat × Datetime × String × String)) : IngestState :=
  samples.foldl (fun s x => _on_throw_data s x.1 x.2.1 x.2.2.1 x.2.2.2) st

/-! ## EventBus (`src/backend/event_bus.py`)

A handler is embedded as a state transformer on an abstract world state
`St` that also reports whether the callback raised (`some msg`); `publish`
catches the exception (try/except around `callback(data)`) and keeps the
state the handler produced. -/

/-- A subscriber callback: given the payload and the world state, the
resulting world state and the exception it raised, if any. -/
def HandlerFn (π St : Type) := π → St → St × Option String

/-- The `EventBus` state: its `_subscribers` dict. -/
structure EventBus (π St : Type) where
  _subscribers : List (String × List (HandlerFn π St))

/-- A freshly constructed `EventBus()`. -/
def EventBus.empty (π St : Type) : EventBus π St := ⟨[]⟩

/-- Embeds `EventBus.subscribe`: create the entry if absent, then append. -/
def EventBus.subscribe {π St : Type} (bus : EventBus π St) (event_type : String)
    (callback : HandlerFn π St) : EventBus π St :=
  ⟨dictInsert bus._subscribers event_type
    (((dictGet bus._subscribers event_type).getD []) ++ [callback])⟩

/-- Embeds `EventBus.publish`: no-op when the type has no entry; otherwise each
registered callback is invoked in order with the same payload, any raised
exception being caught and logged. -/
def EventBus.publish {π St : Type} (bus : EventBus π St) (event_type : String) (data : π)
    (σ : St) : St :=
  match dictGet bus._subscribers event_type with
  | none => σ
  | some callbacks => callbacks.foldl (fun s cb => (cb data s).1) σ

/-! ## Scanner (`src/src/ble/scanner.py`)

`scan_once` is abstracted as an environment oracle `env` giving each
attempt's outcome (`none` covers both "no matching device" and the
caught-exception branch, which also returns `None`). `scan_with_retry`'s
control flow is embedded with an explicit action trace; the recursion is
structural on the number of remaining loop iterations of
`for attempt in range(1, retry_max + 1)`. -/

/-- A `bleak` BLE device descriptor, as used by the scanner. -/
structure BLEDevice where
  address : String
  name : Option String
deriving DecidableEq

/-- The `DartsLiveScanner` configuration state. -/
structure DartsLiveScanner where
  scan_timeout : Nat
  retry_max : Nat
  retry_delay : Nat
deriving DecidableEq

/-- Observable action of `scan_with_retry`: a `scan_once` attempt or an
`asyncio.sleep(retry_delay)`. -/
inductive ScanAction where
  | scanAttempt (attempt : Nat)
  | sleep (seconds : Nat)
deriving DecidableEq

/-- True exactly on `scanAttempt` actions. -/
def isScanAttempt : ScanAction → Bool
  | ScanAction.scanAttempt _ => true
  | ScanAction.sleep _ => false

/-- Number of `scan_once` attempts in a trace. -/
def scanCount (tr : List ScanAction) : Nat := tr.countP isScanAttempt

/-- The loop body of `scan_with_retry`, with `r` remaining iterations and
the current 1-based `attempt` number; `attempt < retry_max` holds exactly
when more than one iteration remains. -/
def scanLoop (env : Nat → Option BLEDevice) (retry_delay : Nat) :
    Nat → Nat → List ScanAction × Option BLEDevice
  | _, 0 => ([], none)
  | attempt, r + 1 =>
    match env attempt with
    | some device => ([ScanAction.scanAttempt attempt], some device)
    | none =>
      if r = 0 then ([ScanAction.scanAttempt attempt], none)
      else
        let rest := scanLoop env retry_delay (attempt + 1) r
        (ScanAction.scanAttempt attempt :: ScanAction.sleep retry_delay :: rest.1, rest.2)

/-- Embeds `DartsLiveScanner.scan_with_retry`, returning the action trace and the
result. -/
def DartsLiveScanner.scan_with_retry (self : DartsLiveScanner)
    (env : Nat → Option BLEDevice) : List ScanAction × Option BLEDevice :=
  scanLoop env self.retry_delay 1 self.retry_max

/-! ## Claim theorems -/

/-- C1 (counterexample): the claim says `get_score` on the reserved
"change device/player" code 0x54 returns `None`; in fact the default
calibration table maps 0x54 to single 20, so `get_score 0x54 = some 20`,
not `none`. -/
theorem c1_reserved_code_scores_counterexample :
    SegmentMapper.default.get_score 0x54 = some 20
    ∧ SegmentMapper.default.get_score 0x54 ≠ none := by
  constructor
  · rfl
  · intro h
    simp [show SegmentMapper.default.get_score 0x54 = some 20 from rfl] at h

/-- C1 (amended): decoding the reserved "change device/player" code 0x54
yields the single-20 calibration entry, so `get_score` returns the numeric
score 20 rather than absent; the pseudo-segment (no-score) treatment of
0x54 lives only in the worker's routing, not in `SegmentMapper`. -/
theorem c1_reserved_code_is_scored :
    SegmentMapper.default.get_segment_info 0x54 = (some 20, some 1, "シングル20")
    ∧ SegmentMapper.default.get_score 0x54 = some 20 := by
  exact ⟨rfl, rfl⟩

/-- C5: for every calibrated code (one whose `get_segment_info` carries
both a target and a multiplier), `get_score` is their product; the
double-20 code 0x28 decodes to target 20, multiplier 2, score 40; and
whenever the target or the multiplier is absent, `get_score` is absent. -/
theorem c5_score_law :
    (∀ (m : SegmentMapper) (code t mu : Nat) (name : String),
        m.get_segment_info code = (some t, some mu, name) → m.get_score code = some (t * mu))
    ∧ SegmentMapper.default.get_segment_info 0x28 = (some 20, some 2, "ダブル20")
    ∧ SegmentMapper.default.get_score 0x28 = some 40
    ∧ (∀ (m : SegmentMapper) (code : Nat),
        (m.get_segment_info code).1 = none ∨ (m.get_segment_info code).2.1 = none →
          m.get_score code = none) := by
  refine ⟨?_, rfl, rfl, ?_⟩
  · intro m code t mu name h
    unfold SegmentMapper.get_score
    rw [h]
  · intro m code h
    unfold SegmentMapper.get_score
    rcases hinfo : m.get_segment_info code with ⟨b, mu, name⟩
    rw [hinfo] at h
    rcases b with _ | b
    · rfl
    · rcases mu with _ | mu
      · rfl
      · simp at h

/-- C5 witness: the score law applied to the concrete default mapper at
the triple-20 code 0x27 and at the unmapped code 0xff. -/
theorem c5_score_law_witness :
    SegmentMapper.default.get_score 0x27 = some (20 * 3)
    ∧ SegmentMapper.default.get_score 0xff = none := by
  constructor
  · exact c5_score_law.1 SegmentMapper.default 0x27 20 3 "トリプル20" rfl
  · exact c5_score_law.2.2.2 SegmentMapper.default 0xff (Or.inl rfl)

/-- C6: a segment code absent from the calibration table decodes, without
failing, to an explicit unknown result: absent target, absent multiplier,
and a diagnostic display name containing the raw code in (two-digit,
lowercase) hexadecimal. -/
theorem c6_unknown_code_diagnostic (m : SegmentMapper) (code : Nat)
    (h : dictGet m._mapping code = none) :
    (m.get_segment_info code).1 = none
    ∧ (m.get_segment_info code).2.1 = none
    ∧ ∃ pre post, (m.get_segment_info code).2.2.data = pre ++ hexChars2 code ++ post := by
  unfold SegmentMapper.get_segment_info
  rw [h]
  refine ⟨rfl, rfl, "不明(0x".data, ")".data, ?_⟩
  show ("不明(0x" ++ hexStr2 code ++ ")").data = _
  rw [String.data_append, String.data_append]
  rfl

/-- C6 witness: decoding the unused byte 0xff on a fresh mapper. -/
theorem c6_unknown_code_diagnostic_witness :
    (SegmentMapper.default.get_segment_info 0xff).1 = none
    ∧ (SegmentMapper.default.get_segment_info 0xff).2.1 = none
    ∧ ∃ pre post,
        (SegmentMapper.default.get_segment_info 0xff).2.2.data = pre ++ hexChars2 0xff ++ post :=
  c6_unknown_code_diagnostic SegmentMapper.default 0xff rfl

theorem ingestAll_invariant (samples : List (Nat × Datetime × String × String))
    (st : IngestState) (h : st.q.items.length ≤ st.q.maxsize) :
    (ingestAll st samples).q.maxsize = st.q.maxsize
    ∧ (ingestAll st samples).q.items.length
        = min (st.q.items.length + samples.length) st.q.maxsize
    ∧ (ingestAll st samples).dropped
        = st.dropped + (st.q.items.length + samples.length
            - min (st.q.items.length + samples.length) st.q.maxsize) := by
  induction samples generalizing st with
  | nil =>
    simp only [ingestAll, List.foldl_nil, List.length_nil, Nat.add_zero]
    exact ⟨trivial, by omega, by omega⟩
  | cons x rest ih =>
    simp only [ingestAll, List.foldl_cons, List.length_cons]
    by_cases hfull : st.q.items.length < st.q.maxsize
    · have step : _on_throw_data st x.1 x.2.1 x.2.2.1 x.2.2.2
          = ⟨⟨st.q.maxsize, st.q.items ++ [⟨x.1, x.2.1, x.2.2.1, x.2.2.2⟩]⟩, st.dropped⟩ := by
        unfold _on_throw_data
        rw [if_pos hfull]
      rw [step]
      have := ih ⟨⟨st.q.maxsize, st.q.items ++ [⟨x.1, x.2.1, x.2.2.1, x.2.2.2⟩]⟩, st.dropped⟩
        (by simpa using hfull)
      simp only [List.length_append, List.length_singleton] at this
      simp only [ingestAll] at this
      refine ⟨this.1, ?_, ?_⟩
      · rw [this.2.1]; omega
      · rw [this.2.2]; omega
    · have step : _on_throw_data st x.1 x.2.1 x.2.2.1 x.2.2.2 = ⟨st.q, st.dropped + 1⟩ := by
        unfold _on_throw_data
        rw [if_neg hfull]
      rw [step]
      have := ih ⟨st.q, st.dropped + 1⟩ (by simpa using h)
      simp only [ingestAll] at this
      refine ⟨this.1, ?_, ?_⟩
      · rw [this.2.1]; omega
      · rw [this.2.2]; omega

/-- C2: pushing N samples through `_on_throw_data` into an initially empty
bounded queue of capacity C with N > C retains exactly C samples and logs
exactly N − C drop diagnostics; `_on_throw_data` is a total function of
the producer state (it never blocks and no exception reaches its caller —
`queue.Full` is caught inside). -/
theorem c2_bounded_queue_drops (C : Nat) (samples : List (Nat × Datetime × String × String))
    (h : samples.length > C) :
    (ingestAll ⟨⟨C, []⟩, 0⟩ samples).q.items.length = C
    ∧ (ingestAll ⟨⟨C, []⟩, 0⟩ samples).dropped = samples.length - C := by
  have := ingestAll_invariant samples ⟨⟨C, []⟩, 0⟩ (by simp)
  simp only [List.length_nil, Nat.zero_add] at this
  refine ⟨?_, ?_⟩
  · rw [this.2.1]; omega
  · rw [this.2.2]; omega

/-- C2 witness: four pushes into a capacity-2 queue retain 2 samples and
log 2 drops. -/
theorem c2_bounded_queue_drops_witness :
    (ingestAll ⟨⟨2, []⟩, 0⟩
        [(1, ⟨"a"⟩, "x", "y"), (2, ⟨"b"⟩, "x", "y"),
          (3, ⟨"c"⟩, "x", "y"), (4, ⟨"d"⟩, "x", "y")]).q.items.length = 2
    ∧ (ingestAll ⟨⟨2, []⟩, 0⟩
        [(1, ⟨"a"⟩, "x", "y"), (2, ⟨"b"⟩, "x", "y"),
          (3, ⟨"c"⟩, "x", "y"), (4, ⟨"d"⟩, "x", "y")]).dropped = 2 :=
  c2_bounded_queue_drops 2
    [(1, ⟨"a"⟩, "x", "y"), (2, ⟨"b"⟩, "x", "y"), (3, ⟨"c"⟩, "x", "y"), (4, ⟨"d"⟩, "x", "y")]
    (by decide)

theorem process_throw_reserved (m : SegmentMapper) (throwId : Nat) (td : RawSample)
    (h : td.segment_code = 0x54) :
    process_throw m throwId td
      = [Effect.publish "player_change"
            (Payload.playerChange td.segment_code td.timestamp.isoformat),
          Effect.save ⟨none, td.timestamp, td.segment_code,
            (m.get_segment_info td.segment_code).2.2, (m.get_segment_info td.segment_code).1,
            (m.get_segment_info td.segment_code).2.1, m.get_score td.segment_code,
            td.device_address, td.device_name⟩] := by
  simp only [process_throw]
  rw [if_pos h]

/-- C3: a sample whose segment code is the reserved player-change code
0x54 is persisted via the storage save contract and published under event
type `player_change`, and is never published under event type `throw`. -/
theorem c3_player_change_routing (m : SegmentMapper) (throwId : Nat) (td : RawSample)
    (h : td.segment_code = 0x54) :
    (∃ t : DartThrow, Effect.save t ∈ process_throw m throwId td
        ∧ t.segment_code = td.segment_code)
    ∧ (∃ p, Effect.publish "player_change" p ∈ process_throw m throwId td)
    ∧ (∀ p, Effect.publish "throw" p ∉ process_throw m throwId td) := by
  rw [process_throw_reserved m throwId td h]
  refine ⟨⟨_, List.mem_cons_of_mem _ (List.mem_cons_self _ _), rfl⟩,
    ⟨_, List.mem_cons_self _ _⟩, ?_⟩
  intro p hp
  rcases List.mem_cons.mp hp with h1 | h2
  · have : ("throw" : String) = "player_change" := by injection h1
    exact absurd this (by decide)
  · exact Effect.noConfusion (List.mem_singleton.mp h2)

/-- C3 witness: the routing applied to a concrete 0x54 sample. -/
theorem c3_player_change_routing_witness :
    (∃ t : DartThrow, Effect.save t ∈ process_throw SegmentMapper.default 1 ⟨0x54, ⟨"T"⟩, "AA", "DL"⟩
        ∧ t.segment_code = (⟨0x54, ⟨"T"⟩, "AA", "DL"⟩ : RawSample).segment_code)
    ∧ (∃ p, Effect.publish "player_change" p
        ∈ process_throw SegmentMapper.default 1 ⟨0x54, ⟨"T"⟩, "AA", "DL"⟩)
    ∧ (∀ p, Effect.publish "throw" p
        ∉ process_throw SegmentMapper.default 1 ⟨0x54, ⟨"T"⟩, "AA", "DL"⟩) :=
  c3_player_change_routing SegmentMapper.default 1 ⟨0x54, ⟨"T"⟩, "AA", "DL"⟩ rfl

/-- C9: the reserved player-change code 0x54 is simultaneously the default
calibration entry for single 20 (`get_segment_info` gives target 20,
multiplier 1, and `get_score` gives 20), so in the worker pipeline a
single-20 hit (code 0x54) is diverted to the `player_change` branch and is
never published under event type `throw`. -/
theorem c9_single20_diverted_to_player_change :
    SegmentMapper.default.get_segment_info 0x54 = (some 20, some 1, "シングル20")
    ∧ SegmentMapper.default.get_score 0x54 = some 20
    ∧ (∀ (throwId : Nat) (td : RawSample), td.segment_code = 0x54 →
        (∃ p, Effect.publish "player_change" p ∈ process_throw SegmentMapper.default throwId td)
        ∧ (∀ p, Effect.publish "throw" p ∉ process_throw SegmentMapper.default throwId td)) := by
  refine ⟨rfl, rfl, ?_⟩
  intro throwId td h
  rw [process_throw_reserved SegmentMapper.default throwId td h]
  refine ⟨⟨_, List.mem_cons_self _ _⟩, ?_⟩
  intro p hp
  rcases List.mem_cons.mp hp with h1 | h2
  · have : ("throw" : String) = "player_change" := by injection h1
    exact absurd this (by decide)
  · exact Effect.noConfusion (List.mem_singleton.mp h2)

/-- C9 witness: the diversion applied to a concrete 0x54 sample. -/
theorem c9_single20_diverted_to_player_change_witness :
    (∃ p, Effect.publish "player_change" p
        ∈ process_throw SegmentMapper.default 2 ⟨0x54, ⟨"T2"⟩, "BB", "DL"⟩)
    ∧ (∀ p, Effect.publish "throw" p
        ∉ process_throw SegmentMapper.default 2 ⟨0x54, ⟨"T2"⟩, "BB", "DL"⟩) :=
  c9_single20_diverted_to_player_change.2.2 2 ⟨0x54, ⟨"T2"⟩, "BB", "DL"⟩ rfl

theorem import_mapping_as_foldl (self : SegmentMapper) (d : List (String × SegEntry)) :
    (self.import_mapping d)._mapping
      = (d.map (fun p => (keyToCode p.1, p.2))).foldl
          (fun m p => dictInsert m p.1 p.2) self._mapping := by
  show d.foldl (fun m p => dictInsert m (keyToCode p.1) p.2) self._mapping = _
  exact (List.foldl_map (fun p : String × SegEntry => (keyToCode p.1, p.2))
    (fun m p => dictInsert m p.1 p.2) d self._mapping).symm

/-- C4: for every segment code whose key occurs in `export_mapping`'s
table, importing that table into a freshly constructed `SegmentMapper`
yields the same `get_segment_info` result for that code as the original
mapper. Stated for any original mapper whose `_mapping` dict is
well-formed (distinct keys — an invariant of every reachable dict). -/
theorem c4_export_import_roundtrip (orig : SegmentMapper)
    (hnd : (orig._mapping.map Prod.fst).Nodup) (code : Nat)
    (hmem : exportKey code ∈ orig.export_mapping.map Prod.fst) :
    (SegmentMapper.default.import_mapping orig.export_mapping).get_segment_info code
      = orig.get_segment_info code := by
  have hkey : code ∈ orig._mapping.map Prod.fst := by
    rcases List.mem_map.mp hmem with ⟨q, hq, hqk⟩
    rcases List.mem_map.mp hq with ⟨p, hp, hpq⟩
    have : exportKey p.1 = exportKey code := by rw [← hqk, ← hpq]
    exact List.mem_map.mpr ⟨p, hp, exportKey_injective this⟩
  obtain ⟨v, hv⟩ : ∃ v, dictGet orig._mapping code = some v :=
    Option.isSome_iff_exists.mp (dictGet_isSome_of_mem hkey)
  have hl : orig.export_mapping.map (fun p => (keyToCode p.1, p.2)) = orig._mapping := by
    show (orig._mapping.map (fun p => (exportKey p.1, p.2))).map (fun p => (keyToCode p.1, p.2)) = _
    rw [List.map_map]
    have hpt : ∀ p ∈ orig._mapping,
        ((fun p : String × SegEntry => (keyToCode p.1, p.2))
          ∘ (fun p : Nat × SegEntry => (exportKey p.1, p.2))) p = id p := by
      intro p hp
      simp [keyToCode_exportKey]
    rw [List.map_congr_left hpt, List.map_id]
  have himp : dictGet (SegmentMapper.default.import_mapping orig.export_mapping)._mapping code
      = some v := by
    rw [import_mapping_as_foldl, hl, foldl_dictInsert_lookup orig._mapping hnd _ code, hv]
    rfl
  unfold SegmentMapper.get_segment_info
  rw [himp, hv]

/-- C4 witness: the round-trip applied to a one-entry mapper holding the
double-20 calibration at code 0x28. -/
theorem c4_export_import_roundtrip_witness :
    (SegmentMapper.default.import_mapping
        (⟨[(0x28, (20, 2, "ダブル20"))]⟩ : SegmentMapper).export_mapping).get_segment_info 0x28
      = (⟨[(0x28, (20, 2, "ダブル20"))]⟩ : SegmentMapper).get_segment_info 0x28 :=
  c4_export_import_roundtrip ⟨[(0x28, (20, 2, "ダブル20"))]⟩ (by decide) 0x28
    (List.mem_map.mpr ⟨(exportKey 0x28, (20, 2, "ダブル20")),
      List.mem_map.mpr ⟨(0x28, (20, 2, "ダブル20")), List.mem_singleton_self _, rfl⟩, rfl⟩)

/-- C10: `import_mapping` merges into the existing table: a code parsed
from no key of the imported dict keeps its pre-existing entry, and a code
parsed from a key of the imported dict (whose keys parse to pairwise
distinct codes, as the keys of a well-formed dict do) ends up mapped to
the imported value. -/
theorem c10_import_merges (self : SegmentMapper) (d : List (String × SegEntry)) (code : Nat) :
    ((∀ p ∈ d, keyToCode p.1 ≠ code) →
        dictGet (self.import_mapping d)._mapping code = dictGet self._mapping code)
    ∧ ((d.map (fun p => keyToCode p.1)).Nodup →
        ∀ k v, (k, v) ∈ d → keyToCode k = code →
          dictGet (self.import_mapping d)._mapping code = some v) := by
  constructor
  · intro h
    rw [import_mapping_as_foldl]
    apply foldl_dictInsert_not_mem
    intro q hq
    rcases List.mem_map.mp hq with ⟨p, hp, hpq⟩
    rw [← hpq]
    exact h p hp
  · intro hnd k v hkv hk
    have hnd' : ((d.map (fun p => (keyToCode p.1, p.2))).map Prod.fst).Nodup := by
      rw [List.map_map]
      exact hnd
    have hmem : (code, v) ∈ d.map (fun p => (keyToCode p.1, p.2)) :=
      List.mem_map.mpr ⟨(k, v), hkv, by rw [← hk]⟩
    rw [import_mapping_as_foldl,
      foldl_dictInsert_lookup _ hnd' _ code, dictGet_of_mem_nodup hmem hnd']
    rfl

/-- C10 witness: importing `[("0x10", (5, 2, "b"))]` into the one-entry
mapper `[(3, (1, 1, "a"))]` leaves code 3 unchanged and maps code 16 to
the imported value. -/
theorem c10_import_merges_witness :
    dictGet ((⟨[(3, (1, 1, "a"))]⟩ : SegmentMapper).import_mapping
        [("0x10", (5, 2, "b"))])._mapping 3
      = dictGet (⟨[(3, (1, 1, "a"))]⟩ : SegmentMapper)._mapping 3
    ∧ dictGet ((⟨[(3, (1, 1, "a"))]⟩ : SegmentMapper).import_mapping
        [("0x10", (5, 2, "b"))])._mapping 16 = some (5, 2, "b") :=
  ⟨(c10_import_merges ⟨[(3, (1, 1, "a"))]⟩ [("0x10", (5, 2, "b"))] 3).1 (by decide),
    (c10_import_merges ⟨[(3, (1, 1, "a"))]⟩ [("0x10", (5, 2, "b"))] 16).2 (by decide)
      "0x10" (5, 2, "b") (by decide) (by decide)⟩

/-- An instrumented subscriber for observing `publish`: it appends its
index and the payload it received to the world state (a call log) and
raises the given exception, if any. -/
def instrHandler (π : Type) (i : Nat) (err : Option String) : HandlerFn π (List (Nat × π)) :=
  fun data s => (s ++ [(i, data)], err)

/-- Subscribing `n` instrumented handlers, indices `0 … n-1` in that
order, to one event type on a fresh bus; `errs i` is the exception handler
`i` raises when invoked (or `none`). -/
def subscribeRange (π : Type) (event_type : String) (errs : Nat → Option String) (n : Nat) :
    EventBus π (List (Nat × π)) :=
  (List.range n).foldl (fun b i => b.subscribe event_type (instrHandler π i (errs i)))
    (EventBus.empty π (List (Nat × π)))

theorem dictGet_subscribe_self {π St : Type} (bus : EventBus π St) (event_type : String)
    (cb : HandlerFn π St) :
    dictGet (bus.subscribe event_type cb)._subscribers event_type
      = some ((dictGet bus._subscribers event_type).getD [] ++ [cb]) :=
  dictGet_dictInsert_self _ _ _

theorem subscribeRange_subscribers (π : Type) (event_type : String) (errs : Nat → Option String)
    (n : Nat) (hn : 0 < n) :
    dictGet (subscribeRange π event_type errs n)._subscribers event_type
      = some ((List.range n).map (fun i => instrHandler π i (errs i))) := by
  induction n with
  | zero => omega
  | succ m ih =>
    rw [subscribeRange, List.range_succ, List.foldl_append, List.foldl_cons, List.foldl_nil]
    rw [show (List.range m).foldl
        (fun b i => b.subscribe event_type (instrHandler π i (errs i)))
        (EventBus.empty π (List (Nat × π))) = subscribeRange π event_type errs m from rfl]
    rw [dictGet_subscribe_self]
    rcases Nat.eq_zero_or_pos m with hm | hm
    · subst hm
      rfl
    · rw [ih hm]
      simp

theorem foldl_instrHandler {π : Type} (errs : Nat → Option String) (d : π) (L : List Nat)
    (σ0 : List (Nat × π)) :
    (L.map (fun i => instrHandler π i (errs i))).foldl (fun s cb => (cb d s).1) σ0
      = σ0 ++ L.map (fun i => (i, d)) := by
  induction L generalizing σ0 with
  | nil => simp
  | cons i rest ih =>
    simp only [List.map_cons, List.foldl_cons, instrHandler, ih, List.append_assoc,
      List.singleton_append]

/-- C7: `publish` on a type with no dict entry is a no-op on the world
state; and for any number `n` of handlers subscribed in index order to one
type, a single `publish` invokes every handler exactly once, in
subscription order, passing each the same payload, regardless of which
handlers raise (`errs` arbitrary): the call log gains exactly
`[(0, d), …, (n-1, d)]`. Exceptions are caught inside `publish` (it
returns a plain state — nothing propagates to the publisher). -/
theorem c7_publish_fanout :
    (∀ (π St : Type) (bus : EventBus π St) (event_type : String) (d : π) (σ : St),
        dictGet bus._subscribers event_type = none → bus.publish event_type d σ = σ)
    ∧ (∀ (π : Type) (n : Nat) (errs : Nat → Option String) (event_type : String) (d : π)
          (σ0 : List (Nat × π)),
        (subscribeRange π event_type errs n).publish event_type d σ0
          = σ0 ++ (List.range n).map (fun i => (i, d))) := by
  constructor
  · intro π St bus event_type d σ h
    unfold EventBus.publish
    rw [h]
  · intro π n errs event_type d σ0
    rcases Nat.eq_zero_or_pos n with hn | hn
    · subst hn
      simp [subscribeRange, EventBus.publish, EventBus.empty, dictGet]
    · unfold EventBus.publish
      rw [subscribeRange_subscribers π event_type errs n hn]
      exact foldl_instrHandler errs d (List.range n) σ0

/-- C7 witness: a no-subscriber publish on a fresh bus is a no-op, and
two handlers on `throw` — the first raising — are both invoked exactly
once, in order, with the same payload. -/
theorem c7_publish_fanout_witness :
    (EventBus.empty Nat Nat).publish "throw" 0 5 = 5
    ∧ (subscribeRange Nat "throw" (fun i => if i = 0 then some "boom" else none) 2).publish
        "throw" 42 [] = [(0, 42), (1, 42)] :=
  ⟨c7_publish_fanout.1 Nat Nat (EventBus.empty Nat Nat) "throw" 0 5 rfl,
    c7_publish_fanout.2 Nat 2 (fun i => if i = 0 then some "boom" else none) "throw" 42 []⟩

theorem scanLoop_succ_eq (env : Nat → Option BLEDevice) (δ a r : Nat) :
    scanLoop env δ a (r + 1) = match env a with
      | some device => ([ScanAction.scanAttempt a], some device)
      | none =>
        if r = 0 then ([ScanAction.scanAttempt a], none)
        else
          (ScanAction.scanAttempt a :: ScanAction.sleep δ :: (scanLoop env δ (a + 1) r).1,
            (scanLoop env δ (a + 1) r).2) := rfl

theorem scanLoop_succ_found {env : Nat → Option BLEDevice} {a : Nat} {d : BLEDevice}
    (δ r : Nat) (h : env a = some d) :
    scanLoop env δ a (r + 1) = ([ScanAction.scanAttempt a], some d) := by
  rw [scanLoop_succ_eq, h]

theorem scanLoop_succ_last {env : Nat → Option BLEDevice} {a : Nat}
    (δ : Nat) (h : env a = none) :
    scanLoop env δ a 1 = ([ScanAction.scanAttempt a], none) := by
  rw [scanLoop_succ_eq, h]
  rfl

theorem scanLoop_succ_step {env : Nat → Option BLEDevice} {a r : Nat}
    (δ : Nat) (h : env a = none) (hr : r ≠ 0) :
    scanLoop env δ a (r + 1)
      = (ScanAction.scanAttempt a :: ScanAction.sleep δ :: (scanLoop env δ (a + 1) r).1,
          (scanLoop env δ (a + 1) r).2) := by
  rw [scanLoop_succ_eq, h]
  simp only [if_neg hr]

theorem scanCount_cons_scan (a : Nat) (tr : List ScanAction) :
    scanCount (ScanAction.scanAttempt a :: tr) = scanCount tr + 1 := by
  simp [scanCount, List.countP_cons, isScanAttempt]

theorem scanCount_cons_sleep (x : Nat) (tr : List ScanAction) :
    scanCount (ScanAction.sleep x :: tr) = scanCount tr := by
  simp [scanCount, List.countP_cons, isScanAttempt]

theorem scanLoop_count_le (env : Nat → Option BLEDevice) (δ : Nat) :
    ∀ (r a : Nat), scanCount (scanLoop env δ a r).1 ≤ r := by
  intro r
  induction r with
  | zero => intro a; simp [scanLoop, scanCount]
  | succ r ih =>
    intro a
    cases henv : env a with
    | some d =>
      rw [scanLoop_succ_found δ r henv]
      simp [scanCount, List.countP_cons, isScanAttempt]
    | none =>
      by_cases hr : r = 0
      · subst hr
        rw [scanLoop_succ_last δ henv]
        simp [scanCount, List.countP_cons, isScanAttempt]
      · rw [scanLoop_succ_step δ henv hr]
        simp only [scanCount_cons_scan, scanCount_cons_sleep]
        have := ih (a + 1)
        omega

theorem scanLoop_found (env : Nat → Option BLEDevice) (δ : Nat) :
    ∀ (r a : Nat) (d : BLEDevice), (scanLoop env δ a r).2 = some d →
      ∃ k, a ≤ k ∧ k < a + r ∧ env k = some d
        ∧ (∀ j, a ≤ j → j < k → env j = none)
        ∧ scanCount (scanLoop env δ a r).1 = k + 1 - a := by
  intro r
  induction r with
  | zero => intro a d h; simp [scanLoop] at h
  | succ r ih =>
    intro a d h
    cases henv : env a with
    | some d0 =>
      rw [scanLoop_succ_found δ r henv] at h ⊢
      simp only at h
      refine ⟨a, le_refl a, by omega, ?_, fun j h1 h2 => by omega, ?_⟩
      · rw [henv, h]
      · simp [scanCount, List.countP_cons, isScanAttempt]
    | none =>
      by_cases hr : r = 0
      · subst hr
        rw [scanLoop_succ_last δ henv] at h
        simp at h
      · rw [scanLoop_succ_step δ henv hr] at h ⊢
        simp only at h
        rcases ih (a + 1) d h with ⟨k, hk1, hk2, hk3, hk4, hk5⟩
        refine ⟨k, by omega, by omega, hk3, ?_, ?_⟩
        · intro j h1 h2
          rcases Nat.eq_or_lt_of_le h1 with h3 | h3
          · rw [← h3]; exact henv
          · exact hk4 j (by omega) h2
        · simp only [scanCount_cons_scan, scanCount_cons_sleep, hk5]
          omega

theorem scanLoop_sleep_delay (env : Nat → Option BLEDevice) (δ : Nat) :
    ∀ (r a x : Nat), ScanAction.sleep x ∈ (scanLoop env δ a r).1 → x = δ := by
  intro r
  induction r with
  | zero => intro a x h; simp [scanLoop] at h
  | succ r ih =>
    intro a x h
    cases henv : env a with
    | some d0 =>
      rw [scanLoop_succ_found δ r henv] at h
      simp at h
    | none =>
      by_cases hr : r = 0
      · subst hr
        rw [scanLoop_succ_last δ henv] at h
        simp at h
      · rw [scanLoop_succ_step δ henv hr] at h
        rcases List.mem_cons.mp h with h1 | h2
        · exact ScanAction.noConfusion h1
        · rcases List.mem_cons.mp h2 with h3 | h4
          · injection h3
          · exact ih (a + 1) x h4

theorem scanLoop_not_found (env : Nat → Option BLEDevice) (δ : Nat) :
    ∀ (r a : Nat), (scanLoop env δ a r).2 = none →
      (∀ j, a ≤ j → j < a + r → env j = none)
        ∧ scanCount (scanLoop env δ a r).1 = r := by
  intro r
  induction r with
  | zero =>
    intro a h
    exact ⟨fun j h1 h2 => by omega, by simp [scanLoop, scanCount]⟩
  | succ r ih =>
    intro a h
    cases henv : env a with
    | some d0 =>
      rw [scanLoop_succ_found δ r henv] at h
      simp at h
    | none =>
      by_cases hr : r = 0
      · subst hr
        rw [scanLoop_succ_last δ henv] at h ⊢
        refine ⟨?_, by simp [scanCount, List.countP_cons, isScanAttempt]⟩
        intro j h1 h2
        have : j = a := by omega
        rw [this]; exact henv
      · rw [scanLoop_succ_step δ henv hr] at h ⊢
        simp only at h
        rcases ih (a + 1) h with ⟨h1, h2⟩
        constructor
        · intro j hj1 hj2
          rcases Nat.eq_or_lt_of_le hj1 with h3 | h3
          · rw [← h3]; exact henv
          · exact h1 j (by omega) (by omega)
        · simp only [scanCount_cons_scan, scanCount_cons_sleep, h2]

/-- C8: `scan_with_retry` performs at most `retry_max` scan attempts;
when it returns a device it is the first one the environment yields and no
further attempts occur (the attempt count equals the index of the first
successful attempt); every sleep in the trace has the fixed `retry_delay`
duration; a `none` (NotFound) result occurs only after all `retry_max`
attempts failed; and under persistent not-found exactly `retry_max`
attempts occur. -/
theorem c8_scan_with_retry (s : DartsLiveScanner) (env : Nat → Option BLEDevice) :
    scanCount (s.scan_with_retry env).1 ≤ s.retry_max
    ∧ (∀ d, (s.scan_with_retry env).2 = some d →
        ∃ k, 1 ≤ k ∧ k ≤ s.retry_max ∧ env k = some d
          ∧ (∀ j, 1 ≤ j → j < k → env j = none)
          ∧ scanCount (s.scan_with_retry env).1 = k)
    ∧ (∀ x, ScanAction.sleep x ∈ (s.scan_with_retry env).1 → x = s.retry_delay)
    ∧ ((s.scan_with_retry env).2 = none →
        (∀ j, 1 ≤ j → j ≤ s.retry_max → env j = none)
          ∧ scanCount (s.scan_with_retry env).1 = s.retry_max)
    ∧ ((∀ j, env j = none) →
        (s.scan_with_retry env).2 = none
          ∧ scanCount (s.scan_with_retry env).1 = s.retry_max) := by
  refine ⟨scanLoop_count_le env s.retry_delay s.retry_max 1, ?_, ?_, ?_, ?_⟩
  · intro d h
    rcases scanLoop_found env s.retry_delay s.retry_max 1 d h with ⟨k, hk1, hk2, hk3, hk4, hk5⟩
    exact ⟨k, hk1, by omega, hk3, hk4, by rw [DartsLiveScanner.scan_with_retry, hk5]; omega⟩
  · intro x h
    exact scanLoop_sleep_delay env s.retry_delay s.retry_max 1 x h
  · intro h
    rcases scanLoop_not_found env s.retry_delay s.retry_max 1 h with ⟨h1, h2⟩
    exact ⟨fun j hj1 hj2 => h1 j hj1 (by omega), h2⟩
  · intro hall
    cases hres : (s.scan_with_retry env).2 with
    | some d =>
      rcases scanLoop_found env s.retry_delay s.retry_max 1 d hres with ⟨k, _, _, hk3, _, _⟩
      rw [hall k] at hk3
      exact Option.noConfusion hk3
    | none =>
      rcases scanLoop_not_found env s.retry_delay s.retry_max 1 hres with ⟨_, h2⟩
      exact ⟨rfl, h2⟩

/-- C8 witness: with three attempts configured and an environment that
never finds the device, `scan_with_retry` returns NotFound after exactly
three scan attempts, and the trace's sleeps are all the configured delay. -/
theorem c8_scan_with_retry_witness :
    (DartsLiveScanner.scan_with_retry ⟨10, 3, 2⟩ (fun _ => none)).2 = none
    ∧ scanCount (DartsLiveScanner.scan_with_retry ⟨10, 3, 2⟩ (fun _ => none)).1 = 3
    ∧ (∀ x, ScanAction.sleep x ∈ (DartsLiveScanner.scan_with_retry ⟨10, 3, 2⟩ (fun _ => none)).1
        → x = 2) :=
  ⟨(c8_scan_with_retry ⟨10, 3, 2⟩ (fun _ => none)).2.2.2.2 (fun _ => rfl) |>.1,
    (c8_scan_with_retry ⟨10, 3, 2⟩ (fun _ => none)).2.2.2.2 (fun _ => rfl) |>.2,
    fun x h => (c8_scan_with_retry ⟨10, 3, 2⟩ (fun _ => none)).2.2.1 x h⟩
